import Mathlib

/-!
Shallow embedding of the core of `simple_dr_meter` (`src/main.py`) and proofs
about it.  Pure Python functions become Lean functions; the places where the
program can abort (the `assert` in `analyze_dr`, the `ValueError` raised by
`int(numpy.round(...))` on NaN) are modelled with `Except`.  `numpy.mean([])`
and `numpy.median([])` evaluate to NaN; NaN is modelled as `none` in an
`Option ℚ` (it arises in this program only for an empty value list).
-/

namespace DrMeter

/-- The fields of `AudioSourceInfo` that `main.py` reads: the grouping key
`(channel_count, sample_rate)` and the tags.  Tag lookup
(`get_tag_with_alternatives`, an external collaborator) is modelled as the
already-resolved `performer` / `album` / title fields. -/
structure AudioSourceInfo where
  channel_count : ℕ
  sample_rate : ℕ
  performer : String
  album : String
  file_path : String
deriving DecidableEq

/-- One element of a `tracks_dr` list: the 6-tuple
`(dr, peak, rms, duration_sec, track_name, file_path)` built by
`process_results`.  `dr` is `None` (here `none`) when the track was too short
to measure. -/
structure TrackRec where
  dr : Option ℚ
  peak : ℚ
  rms : ℚ
  duration_sec : ℕ
  track_name : String
  track_path : String
deriving DecidableEq

/-- An element of the `dr_log_items` list fed to `make_log_groups`:
an `AudioSourceInfo` paired with the per-track result tuples for that file. -/
abbrev LogItem := AudioSourceInfo × List TrackRec

/-- The key function of the `itertools.groupby` call in `make_log_groups`:
`lambda x: (x[0].channel_count, x[0].sample_rate)`. -/
def groupKey (x : LogItem) : ℕ × ℕ :=
  (x.1.channel_count, x.1.sample_rate)

/-- Python's `==` on the key tuples, as used by `itertools.groupby` to decide
whether the next element continues the current run. -/
def sameKey (a b : LogItem) : Bool :=
  decide (groupKey a = groupKey b)

/-- `LogGroup` from `main.py`; `performers` and `albums` are Python `set`s,
modelled as `Finset String`. -/
structure LogGroup where
  performers : Finset String
  albums : Finset String
  channels : ℕ
  sample_rate : ℕ
  tracks_dr : List TrackRec
deriving DecidableEq

/-- The body of the `for` loop of `make_log_groups`, applied to one run
(`subitems`) produced by `itertools.groupby`.  The group's key is the key of
the first element of the run, exactly as `itertools.groupby` reports it. -/
def groupOfChunk (chunk : List LogItem) : LogGroup :=
  { performers := (chunk.map fun x => x.1.performer).toFinset
    albums := (chunk.map fun x => x.1.album).toFinset
    channels := ((chunk.head?.map fun x => x.1.channel_count).getD 0)
    sample_rate := ((chunk.head?.map fun x => x.1.sample_rate).getD 0)
    tracks_dr := (chunk.map fun x => x.2).flatten }

/-- `make_log_groups` from `main.py`: `itertools.groupby` over the input
sequence with key `(channel_count, sample_rate)` — adjacency-based runs, no
sorting — then one `LogGroup` per run.  `List.splitBy` is exactly
`itertools.groupby`'s run decomposition. -/
def make_log_groups (l : List LogItem) : List LogGroup :=
  (l.splitBy sameKey).map groupOfChunk

/-- The key `itertools.groupby` would report for a run: the key of the run's
first element. -/
def chunkKey (c : List LogItem) : ℕ × ℕ :=
  (c.head?.map groupKey).getD (0, 0)

/-- `threads_outer = max(1, min(num_files, cpu_count))` (`main.py`). -/
def threads_outer (num_files cpu_count : ℕ) : ℕ :=
  max 1 (min num_files cpu_count)

/-- `threads_inner = cpu_count // threads_outer` (`main.py`). -/
def threads_inner (num_files cpu_count : ℕ) : ℕ :=
  cpu_count / threads_outer num_files cpu_count

/-- The two map implementations `choose_map_impl` can return: the built-in
sequential `map`, or `pool.imap_unordered` on a pool of the given width. -/
inductive MapImpl where
  | builtinMap : MapImpl
  | poolImapUnordered (threads chunksize : ℕ) : MapImpl
deriving DecidableEq

/-- `choose_map_impl` from `analyze_dr`: built-in `map` when `threads <= 1`,
otherwise `functools.partial(pool.imap_unordered, chunksize=chunksize)` on a
fresh pool of `threads` workers. -/
def choose_map_impl (threads chunksize : ℕ) : MapImpl :=
  if threads ≤ 1 then .builtinMap else .poolImapUnordered threads chunksize

/-- The semantics of Python's built-in `map`: items are consumed one at a
time, in input order. -/
def seqMap {α β : Type} (f : α → β) : List α → List β
  | [] => []
  | a :: as => f a :: seqMap f as

/-- The possible delivery sequences of each map implementation: the built-in
`map` yields exactly the in-order image; `imap_unordered` guarantees only
that every result is delivered once, in some (scheduling-dependent) order —
modelled as the set of permutations of the image. -/
def mapImplOutputs {α β : Type} (impl : MapImpl) (f : α → β) (l : List α)
    (out : List β) : Prop :=
  match impl with
  | .builtinMap => out = seqMap f l
  | .poolImapUnordered _ _ => out.Perm (l.map f)

/-- The run-level `dr_items` accumulation of `process_results`, over the
per-track `dr` values in delivery order: `if dr: dr_items.append(dr)`.
Python truthiness: `None` and `0` are both falsy, so a track contributes its
`dr` only when it is present *and* nonzero. -/
def dr_items_of : List (Option ℚ) → List ℚ
  | [] => []
  | none :: rest => dr_items_of rest
  | some q :: rest => if q = 0 then dr_items_of rest else q :: dr_items_of rest

/-- The arithmetic mean, as computed by `numpy.mean` on a nonempty list. -/
def listMean (l : List ℚ) : ℚ := l.sum / l.length

/-- `numpy.mean`: NaN (`none`) on an empty list, the arithmetic mean
otherwise. -/
def npMean (l : List ℚ) : Option ℚ :=
  if l = [] then none else some (listMean l)

/-- `numpy.round`: round half to even (banker's rounding). -/
def npRound (q : ℚ) : ℤ :=
  if q - ⌊q⌋ < 1 / 2 then ⌊q⌋
  else if 1 / 2 < q - ⌊q⌋ then ⌊q⌋ + 1
  else if Even ⌊q⌋ then ⌊q⌋ else ⌊q⌋ + 1

/-- `numpy.median`: NaN (`none`) on an empty list; otherwise sort ascending
and take the element at index `(n-1)/2` for odd `n`, the average of the two
middle elements for even `n`. -/
def npMedian (l : List ℚ) : Option ℚ :=
  if l = [] then none
  else
    some (if l.length % 2 = 1 then
      (l.mergeSort fun a b => decide (a ≤ b)).getD ((l.length - 1) / 2) 0
    else
      ((l.mergeSort fun a b => decide (a ≤ b)).getD (l.length / 2 - 1) 0 +
        (l.mergeSort fun a b => decide (a ≤ b)).getD (l.length / 2) 0) / 2)

/-- Modelled from the spec: the "standard median" — sort, middle element when
the count is odd, average of the two middle values when the count is even.
Stated independently of `npMedian` to compare the code against the spec's
words. -/
def stdMedian (l : List ℚ) : ℚ :=
  if l.length % 2 = 0 then
    ((l.mergeSort fun a b => decide (a ≤ b)).getD (l.length / 2 - 1) 0 +
      (l.mergeSort fun a b => decide (a ≤ b)).getD (l.length / 2) 0) / 2
  else (l.mergeSort fun a b => decide (a ≤ b)).getD (l.length / 2) 0

/-- The `ValueError` Python raises in `int(numpy.round(numpy.mean([])))`
("cannot convert float NaN to integer"). -/
inductive SummaryError where
  | nanToInt : SummaryError
deriving DecidableEq

/-- The summary pair returned by `analyze_dr`; `none` models a NaN float. -/
structure SummaryOut where
  mean : Option ℚ
  median : Option ℚ
deriving DecidableEq

/-- Lines 288–292 of `main.py`: with `keep_precision` the raw
`numpy.mean` / `numpy.median` values are returned (NaN included); otherwise
the mean passes through `int(numpy.round(...))`, which raises `ValueError`
on NaN, i.e. exactly when `dr_items` is empty. -/
def analyze_summary (dr_items : List ℚ) (keep_precision : Bool) :
    Except SummaryError SummaryOut :=
  if keep_precision then .ok ⟨npMean dr_items, npMedian dr_items⟩
  else
    match npMean dr_items with
    | none => .error .nanToInt
    | some m => .ok ⟨some ((npRound m : ℤ) : ℚ), npMedian dr_items⟩

/-- The summary step of a whole run: collect `dr_items` from the per-track
`dr` values (`process_results`), then compute mean and median over that one
list (`analyze_dr`). -/
def analyze_dr_summary (track_drs : List (Option ℚ)) (keep_precision : Bool) :
    Except SummaryError SummaryOut :=
  analyze_summary (dr_items_of track_drs) keep_precision

/-- `should_write_log` from `main`: write `dr.txt` only when none of
`--no-log`, `--keep-precision`, `--no-resample` is given. -/
def should_write_log (no_log keep_precision no_resample : Bool) : Bool :=
  !no_log && !keep_precision && !no_resample

/-- Where the rendered log goes.  `noOutput` is the vocabulary needed to
state "no log output at all"; `main` itself never produces it. -/
inductive LogDest where
  | file : LogDest
  | stdout : LogDest
  | noOutput : LogDest
deriving DecidableEq

/-- The log dispatch at the end of `main`: `write_log` into the `dr.txt`
file when `should_write_log`, otherwise `write_log(sys.stdout.write, ...)`.
Both branches render the log. -/
def main_log_dest (no_log keep_precision no_resample : Bool) : LogDest :=
  if should_write_log no_log keep_precision no_resample then .file else .stdout

/-- The `AssertionError` from `assert num_files > 0` in `analyze_dr`. -/
inductive RunError where
  | assertNumFilesPositive : RunError
deriving DecidableEq

/-- The prologue of `analyze_dr`: read the catalog, `assert num_files > 0`,
then compute the two pool widths and build the two map implementations
(`chunksize` 1 outer, 4 inner).  The `Except` order mirrors the source: the
assert fires before any width is computed or any pool is created. -/
def analyze_dr_setup (audio_info : List AudioSourceInfo) (cpu_count : ℕ) :
    Except RunError (ℕ × ℕ × MapImpl × MapImpl) :=
  if audio_info.length > 0 then
    .ok (threads_outer audio_info.length cpu_count,
      threads_inner audio_info.length cpu_count,
      choose_map_impl (threads_outer audio_info.length cpu_count) 1,
      choose_map_impl (threads_inner audio_info.length cpu_count) 4)
  else .error .assertNumFilesPositive

/-- Python `f'{n:02d}'` for a nonnegative `n`: zero-pad to width 2. -/
def pad2 (n : ℕ) : String :=
  if n < 10 then "0" ++ toString n else toString n

/-- `format_time` from `main.py`: `m, s = divmod(seconds, 60)`;
`h, m = divmod(m, 60)`; `'h:mm:ss'` when `h` is truthy (nonzero), else
`'m:ss'`. -/
def format_time (seconds : ℕ) : String :=
  if seconds / 60 / 60 ≠ 0 then
    toString (seconds / 60 / 60) ++ ":" ++ pad2 (seconds / 60 % 60) ++ ":" ++
      pad2 (seconds % 60)
  else toString (seconds / 60) ++ ":" ++ pad2 (seconds % 60)

/-- Three concrete catalog entries for the grouping examples: `srcA` and
`srcC` share the key `(2, 44100)`, `srcB` has a different sample rate. -/
def srcA : AudioSourceInfo := ⟨2, 44100, "P1", "A1", "f1"⟩

def srcB : AudioSourceInfo := ⟨2, 48000, "P2", "A2", "f2"⟩

def srcC : AudioSourceInfo := ⟨2, 44100, "P3", "A3", "f3"⟩

def itemA : LogItem := (srcA, [])

def itemB : LogItem := (srcB, [])

def itemC : LogItem := (srcC, [])

lemma chain'_eq_all {α κ : Type} (f : α → κ) :
    ∀ {c : List α}, (c.Chain' fun x y => f x = f y) →
      ∀ x ∈ c, ∀ y ∈ c, f x = f y := by
  intro c
  induction c with
  | nil => intro _ x hx; exact absurd hx (List.not_mem_nil x)
  | cons a t IH =>
    intro hc x hx y hy
    cases t with
    | nil =>
      rw [List.mem_singleton] at hx hy
      subst hx; subst hy; rfl
    | cons b t2 =>
      rw [List.chain'_cons] at hc
      have hall := IH hc.2
      have hab : f a = f b := hc.1
      rcases List.mem_cons.mp hx with rfl | hx'
      · rcases List.mem_cons.mp hy with rfl | hy'
        · rfl
        · exact hab.trans (hall b (List.mem_cons_self b t2) y hy')
      · rcases List.mem_cons.mp hy with rfl | hy'
        · exact (hab.trans (hall b (List.mem_cons_self b t2) x hx')).symm
        · exact hall x hx' y hy'

lemma chain'_imp_mem {β : Type} {R S : β → β → Prop} :
    ∀ {cs : List β}, (∀ x ∈ cs, ∀ y ∈ cs, R x y → S x y) →
      cs.Chain' R → cs.Chain' S := by
  intro cs
  induction cs with
  | nil => intro _ _; exact List.chain'_nil
  | cons a t IH =>
    intro himp hc
    cases t with
    | nil => exact List.chain'_singleton a
    | cons b t2 =>
      rw [List.chain'_cons] at hc ⊢
      refine ⟨himp a (List.mem_cons_self a _) b
        (List.mem_cons_of_mem a (List.mem_cons_self b _)) hc.1, ?_⟩
      exact IH (fun x hx y hy hr =>
        himp x (List.mem_cons_of_mem a hx) y (List.mem_cons_of_mem a hy) hr) hc.2

/-- Every element of a run produced by `itertools.groupby` has the run's
key. -/
lemma mem_splitBy_all_key {l c : List LogItem}
    (hc : c ∈ l.splitBy sameKey) : ∀ x ∈ c, groupKey x = chunkKey c := by
  have hchain := List.chain'_of_mem_splitBy hc
  have hchain' : c.Chain' fun x y => groupKey x = groupKey y :=
    hchain.imp fun x y hxy => of_decide_eq_true hxy
  intro x hx
  cases c with
  | nil => cases hx
  | cons a t =>
    have h := chain'_eq_all groupKey hchain' x hx a (List.mem_cons_self a t)
    simpa [chunkKey] using h

/-- Adjacent runs produced by `itertools.groupby` have distinct keys. -/
lemma splitBy_chunkKey_chain' (l : List LogItem) :
    (l.splitBy sameKey).Chain' fun c₁ c₂ => chunkKey c₁ ≠ chunkKey c₂ := by
  have h := List.chain'_getLast_head_splitBy sameKey l
  refine chain'_imp_mem ?_ h
  intro c₁ h₁ c₂ h₂ hr
  obtain ⟨ha, hb, hfalse⟩ := hr
  have hlast : groupKey (c₁.getLast ha) = chunkKey c₁ :=
    mem_splitBy_all_key h₁ _ (List.getLast_mem ha)
  have hhead : groupKey (c₂.head hb) = chunkKey c₂ :=
    mem_splitBy_all_key h₂ _ (List.head_mem hb)
  have hne : ¬ groupKey (c₁.getLast ha) = groupKey (c₂.head hb) := by
    simpa [sameKey] using hfalse
  rw [hlast, hhead] at hne
  exact hne

lemma splitBy_loop_map {α β : Type} (f : α → β) (R : α → α → Bool)
    (S : β → β → Bool) (hRS : ∀ x y, S (f x) (f y) = R x y) :
    ∀ (l : List α) (a : α) (g : List α) (gs : List (List α)),
      List.splitBy.loop S (l.map f) (f a) (g.map f) (gs.map (List.map f)) =
        (List.splitBy.loop R l a g gs).map (List.map f) := by
  intro l
  induction l with
  | nil =>
    intro a g gs
    simp [List.splitBy.loop]
  | cons b l IH =>
    intro a g gs
    rw [List.map_cons]
    simp only [List.splitBy.loop]
    rw [hRS a b]
    cases hR : R a b with
    | true =>
      simpa using IH b (a :: g) gs
    | false =>
      simpa using IH b [] ((a :: g).reverse :: gs)

/-- `splitBy` commutes with `map` when the relations correspond. -/
lemma splitBy_map {α β : Type} (f : α → β) (R : α → α → Bool)
    (S : β → β → Bool) (hRS : ∀ x y, S (f x) (f y) = R x y) (l : List α) :
    (l.map f).splitBy S = (l.splitBy R).map (List.map f) := by
  cases l with
  | nil => rfl
  | cons a as =>
    have h := splitBy_loop_map f R S hRS as a [] []
    simpa [List.splitBy] using h

/-- The run structure of the grouping is a function of the key sequence
alone. -/
lemma splitBy_key_structure (l : List LogItem) :
    (l.splitBy sameKey).map (List.map groupKey) =
      (l.map groupKey).splitBy fun a b => decide (a = b) :=
  (splitBy_map groupKey sameKey (fun a b => decide (a = b))
    (fun _ _ => rfl) l).symm

/-- Run keys and run lengths depend only on the sequence of
`(channel count, sample rate)` keys, never on any other field. -/
lemma splitBy_congr_of_map_key {l₁ l₂ : List LogItem}
    (h : l₁.map groupKey = l₂.map groupKey) :
    (l₁.splitBy sameKey).map (fun c => (chunkKey c, c.length)) =
      (l₂.splitBy sameKey).map (fun c => (chunkKey c, c.length)) := by
  have h1 := splitBy_key_structure l₁
  have h2 := splitBy_key_structure l₂
  rw [h] at h1
  have hmk : (l₁.splitBy sameKey).map (List.map groupKey) =
      (l₂.splitBy sameKey).map (List.map groupKey) := h1.trans h2.symm
  have key : ∀ (cs : List (List LogItem)),
      cs.map (fun c => (chunkKey c, c.length)) =
        (cs.map (List.map groupKey)).map
          (fun kc => (kc.head?.getD ((0, 0) : ℕ × ℕ), kc.length)) := by
    intro cs
    rw [List.map_map]
    apply List.map_congr_left
    intro c _
    cases c <;> simp [chunkKey]
  rw [key, key, hmk]

/-- C1: `make_log_groups` groups by adjacency, not by full partition.  The
runs of `itertools.groupby` concatenate back to the input in order (no
sorting), every run is nonempty with all elements sharing the run's
`(channel count, sample rate)` key (entries with differing keys never
merge), adjacent runs have distinct keys (maximal merging of consecutive
equal-key entries), `make_log_groups` emits one group per run, and the
concrete input A, B, A with `groupKey A = groupKey C ≠ groupKey B` yields
three groups — the two same-key entries separated by a different key end in
two separate groups. -/
theorem make_log_groups_adjacency_grouping (l : List LogItem) :
    ((l.splitBy sameKey).flatten = l) ∧
    (∀ c ∈ l.splitBy sameKey, c ≠ [] ∧ ∀ x ∈ c, groupKey x = chunkKey c) ∧
    ((l.splitBy sameKey).Chain' fun c₁ c₂ => chunkKey c₁ ≠ chunkKey c₂) ∧
    (make_log_groups l = (l.splitBy sameKey).map groupOfChunk) ∧
    (groupKey itemA = groupKey itemC ∧ groupKey itemA ≠ groupKey itemB ∧
      (make_log_groups [itemA, itemB, itemC]).length = 3) := by
  refine ⟨List.flatten_splitBy _ _, ?_, splitBy_chunkKey_chain' l, rfl, ?_⟩
  · intro c hc
    exact ⟨List.ne_nil_of_mem_splitBy _ hc, mem_splitBy_all_key hc⟩
  · refine ⟨by decide, by decide, by decide⟩

/-- C1 witness: the theorem applied to the concrete three-entry input, with
the run-membership hypotheses discharged by computation. -/
theorem make_log_groups_adjacency_grouping_witness :
    (make_log_groups [itemA, itemB, itemC]).length = 3 ∧
      groupKey itemA = chunkKey [itemA] := by
  refine ⟨(make_log_groups_adjacency_grouping []).2.2.2.2.2.2, ?_⟩
  exact ((make_log_groups_adjacency_grouping [itemA]).2.1 [itemA]
    (by decide)).2 itemA (by decide)

/-- C8: every produced `LogGroup` satisfies the grouping invariant.  For
each run of the grouping: every member file has exactly the group's channel
count and sample rate; the group's `performers` and `albums` are exactly the
set-unions (membership-wise) of the member files' tags; the group built from
the run is among `make_log_groups`'s output.  Moreover the grouping
structure (run keys and run lengths) is a function of the
`(channel count, sample rate)` sequence alone — no other tag can affect
membership. -/
theorem make_log_groups_invariants :
    (∀ (l c : List LogItem), c ∈ l.splitBy sameKey →
      (∀ x ∈ c, x.1.channel_count = (groupOfChunk c).channels ∧
        x.1.sample_rate = (groupOfChunk c).sample_rate) ∧
      (∀ s, s ∈ (groupOfChunk c).performers ↔ ∃ x ∈ c, x.1.performer = s) ∧
      (∀ s, s ∈ (groupOfChunk c).albums ↔ ∃ x ∈ c, x.1.album = s) ∧
      groupOfChunk c ∈ make_log_groups l) ∧
    (∀ (l₁ l₂ : List LogItem), l₁.map groupKey = l₂.map groupKey →
      (l₁.splitBy sameKey).map (fun c => (chunkKey c, c.length)) =
        (l₂.splitBy sameKey).map (fun c => (chunkKey c, c.length))) := by
  constructor
  · intro l c hc
    refine ⟨?_, ?_, ?_, List.mem_map_of_mem groupOfChunk hc⟩
    · intro x hx
      have hkey := mem_splitBy_all_key hc x hx
      cases c with
      | nil => cases hx
      | cons a t =>
        simp only [groupKey, chunkKey, List.head?_cons, Option.map_some',
          Option.getD_some, Prod.mk.injEq] at hkey
        simp only [groupOfChunk, List.head?_cons, Option.map_some',
          Option.getD_some]
        exact hkey
    · intro s
      simp [groupOfChunk, List.mem_toFinset, List.mem_map]
    · intro s
      simp [groupOfChunk, List.mem_toFinset, List.mem_map]
  · intro l₁ l₂ h
    exact splitBy_congr_of_map_key h

/-- C8 witness: the invariant at a concrete one-file run, with the
membership and key-sequence hypotheses discharged by computation. -/
theorem make_log_groups_invariants_witness :
    groupOfChunk [itemA] ∈ make_log_groups [itemA] ∧
      itemA.1.channel_count = (groupOfChunk [itemA]).channels ∧
      ([itemA].splitBy sameKey).map (fun c => (chunkKey c, c.length)) =
        ([itemA].splitBy sameKey).map (fun c => (chunkKey c, c.length)) := by
  have h := make_log_groups_invariants.1 [itemA] [itemA] (by decide)
  exact ⟨h.2.2.2, (h.1 itemA (by decide)).1,
    make_log_groups_invariants.2 [itemA] [itemA] rfl⟩

lemma dr_items_of_eq_filter (tds : List (Option ℚ)) :
    dr_items_of tds = (tds.filterMap id).filter fun q => decide (q ≠ 0) := by
  induction tds with
  | nil => rfl
  | cons hd rest IH =>
    cases hd with
    | none => simpa [dr_items_of] using IH
    | some q =>
      by_cases hq : q = 0
      · subst hq; simp [dr_items_of, IH]
      · simp [dr_items_of, hq, IH]

lemma npRound_nearest (q : ℚ) : |((npRound q : ℤ) : ℚ) - q| ≤ 1 / 2 := by
  have h0 : ((⌊q⌋ : ℤ) : ℚ) ≤ q := Int.floor_le q
  have h1 : q < ⌊q⌋ + 1 := Int.lt_floor_add_one q
  unfold npRound
  split_ifs with hlt hgt heven
  · rw [abs_le]; constructor <;> linarith
  · rw [abs_le]; push_cast; constructor <;> linarith
  · rw [abs_le]; constructor <;> linarith
  · rw [abs_le]; push_cast; constructor <;> linarith

lemma npMedian_eq_stdMedian {l : List ℚ} (h : l ≠ []) :
    npMedian l = some (stdMedian l) := by
  unfold npMedian stdMedian
  rw [if_neg h]
  congr 1
  by_cases hpar : l.length % 2 = 1
  · rw [if_pos hpar, if_neg (by omega)]
    have hidx : (l.length - 1) / 2 = l.length / 2 := by omega
    rw [hidx]
  · rw [if_neg hpar, if_pos (by omega)]

/-- C2 counterexample: a track whose reduction produced the defined DR value
`0` contributes nothing to `dr_items` — `if dr:` in `process_results` tests
Python truthiness, and `0` is falsy — even though the non-absent value set of
that run is `[0]`. -/
theorem dr_items_zero_dropped :
    dr_items_of [some 0] = [] ∧
    ([some (0 : ℚ)] : List (Option ℚ)).filterMap id = [0] ∧
    dr_items_of [some 0] ≠ ([some (0 : ℚ)] : List (Option ℚ)).filterMap id := by
  refine ⟨by decide, by decide, by decide⟩

/-- C2 amended: the value set used by both the collection-wide mean and the
median is exactly the per-track DR values that are non-absent *and nonzero*,
each contributing once, in delivery order; absent and zero DR values
contribute nothing, and mean and median are computed over that same one
list. -/
theorem dr_items_truthy_characterization (track_drs : List (Option ℚ))
    (keep_precision : Bool) :
    dr_items_of track_drs =
      ((track_drs.filterMap id).filter fun q => decide (q ≠ 0)) ∧
    analyze_dr_summary track_drs keep_precision =
      analyze_summary ((track_drs.filterMap id).filter fun q => decide (q ≠ 0))
        keep_precision := by
  have h := dr_items_of_eq_filter track_drs
  exact ⟨h, by rw [analyze_dr_summary, h]⟩

/-- C3: evaluated at a run where every track produced an absent DR
(`dr_items` empty).  With `keep_precision` the code returns the NaN
placeholders (`none` models NaN) as an ordinary summary instead of failing;
without it, the run dies of the incidental `ValueError` raised by
`int(numpy.round(nan))` — no `NoMeasurableTracks` fatal error exists in the
code. -/
theorem analyze_summary_all_absent :
    dr_items_of [none, none] = [] ∧
    analyze_dr_summary [none, none] true = .ok ⟨none, none⟩ ∧
    analyze_dr_summary [none, none] false = .error .nanToInt := by
  refine ⟨rfl, rfl, rfl⟩

/-- C4: over any nonempty `dr_items` list, the default mode reports the mean
rounded by `numpy.round` — an integer within 1/2 of the arithmetic mean —
while keep-precision mode reports the unrounded arithmetic mean; in both
modes the median is the standard median (average of the two middle values at
even count), never rounded. -/
theorem analyze_summary_mean_median (l : List ℚ) (h : l ≠ []) :
    analyze_summary l false =
      .ok ⟨some ((npRound (listMean l) : ℤ) : ℚ), some (stdMedian l)⟩ ∧
    analyze_summary l true = .ok ⟨some (listMean l), some (stdMedian l)⟩ ∧
    |((npRound (listMean l) : ℤ) : ℚ) - listMean l| ≤ 1 / 2 := by
  have hm : npMean l = some (listMean l) := by rw [npMean, if_neg h]
  have hmed := npMedian_eq_stdMedian h
  refine ⟨?_, ?_, npRound_nearest _⟩
  · simp [analyze_summary, hm, hmed]
  · simp [analyze_summary, hm, hmed]

lemma npRound_intCast (z : ℤ) : npRound ((z : ℚ)) = z := by
  unfold npRound
  rw [Int.floor_intCast]
  norm_num

lemma sortedExample1 :
    List.Pairwise (fun a b : ℚ => decide (a ≤ b)) [8, 10, 12, 14] := by
  simp [List.pairwise_cons, decide_eq_true_eq]
  norm_num

lemma sortedExample2 :
    List.Pairwise (fun a b : ℚ => decide (a ≤ b)) [8, 10, 12] := by
  simp [List.pairwise_cons, decide_eq_true_eq]
  norm_num

/-- C4 witness: DR values `[8, 10, 12, 14]` give mean 11 and median 11;
`[8, 10, 12]` give mean 10 and median 10. -/
theorem analyze_summary_mean_median_witness :
    analyze_summary [8, 10, 12, 14] false = .ok ⟨some 11, some 11⟩ ∧
    analyze_summary [8, 10, 12] false = .ok ⟨some 10, some 10⟩ ∧
    analyze_summary [8, 10, 12, 14] true = .ok ⟨some 11, some 11⟩ := by
  have h1 := analyze_summary_mean_median [8, 10, 12, 14] (by simp)
  have h2 := analyze_summary_mean_median [8, 10, 12] (by simp)
  have hm1 : listMean [8, 10, 12, 14] = 11 := by norm_num [listMean]
  have hm2 : listMean [8, 10, 12] = 10 := by norm_num [listMean]
  have hr1 : ((npRound (listMean [8, 10, 12, 14]) : ℤ) : ℚ) = 11 := by
    rw [hm1, show (11 : ℚ) = ((11 : ℤ) : ℚ) by norm_num, npRound_intCast]
  have hr2 : ((npRound (listMean [8, 10, 12]) : ℤ) : ℚ) = 10 := by
    rw [hm2, show (10 : ℚ) = ((10 : ℤ) : ℚ) by norm_num, npRound_intCast]
  have hs1 : stdMedian [8, 10, 12, 14] = 11 := by
    rw [stdMedian, List.mergeSort_of_sorted sortedExample1]
    norm_num [List.getD]
  have hs2 : stdMedian [8, 10, 12] = 10 := by
    rw [stdMedian, List.mergeSort_of_sorted sortedExample2]
    norm_num [List.getD]
  refine ⟨?_, ?_, ?_⟩
  · rw [h1.1, hr1, hs1]
  · rw [h2.1, hr2, hs2]
  · rw [h1.2.1, hm1, hs1]

/-- C5: for any parallelism `P ≥ 1` and file count `T ≥ 1`, the outer width
is `max(1, min(T, P))`, the inner width is `P` integer-divided by the outer
width, and the inner width is at least 1. -/
theorem scheduler_widths (T P : ℕ) (_hT : 1 ≤ T) (hP : 1 ≤ P) :
    threads_outer T P = max 1 (min T P) ∧
    threads_inner T P = P / threads_outer T P ∧
    1 ≤ threads_inner T P := by
  refine ⟨rfl, rfl, ?_⟩
  have hle : threads_outer T P ≤ P := by
    rw [threads_outer]; exact max_le hP (min_le_right T P)
  have hpos : 0 < threads_outer T P :=
    lt_of_lt_of_le one_pos (le_max_left 1 _)
  rw [threads_inner]
  exact (Nat.one_le_div_iff hpos).mpr hle

/-- C5 witness: 3 files on an 8-way host give outer width 3 and inner width
2. -/
theorem scheduler_widths_witness :
    threads_outer 3 8 = 3 ∧ threads_inner 3 8 = 2 ∧ 1 ≤ threads_inner 3 8 := by
  have h := scheduler_widths 3 8 (by decide) (by decide)
  exact ⟨by decide, by decide, h.2.2⟩

lemma seqMap_eq_map {α β : Type} (f : α → β) :
    ∀ (l : List α), seqMap f l = l.map f := by
  intro l
  induction l with
  | nil => rfl
  | cons a as IH => rw [seqMap, List.map_cons, IH]

/-- C6: width 1 selects the built-in `map`, whose only possible delivery is
the strictly sequential in-order image; width greater than 1 selects
`pool.imap_unordered`, whose admissible deliveries are the permutations of
the image — including ones that differ from submission order. -/
theorem choose_map_impl_spec :
    (∀ chunksize, choose_map_impl 1 chunksize = .builtinMap) ∧
    (∀ threads chunksize, 1 < threads →
      choose_map_impl threads chunksize =
        .poolImapUnordered threads chunksize) ∧
    (∀ (f : ℕ → ℕ) (l out : List ℕ),
      mapImplOutputs (choose_map_impl 1 0) f l out → out = l.map f) ∧
    (∃ out : List ℕ,
      mapImplOutputs (choose_map_impl 2 1) (fun x => x) [1, 2] out ∧
        out ≠ [1, 2].map fun x => x) := by
  refine ⟨fun _ => rfl, ?_, ?_, ?_⟩
  · intro th c hth
    rw [choose_map_impl, if_neg (by omega)]
  · intro f l out hout
    exact (show out = seqMap f l from hout).trans (seqMap_eq_map f l)
  · refine ⟨[2, 1], ?_, by decide⟩
    show ([2, 1] : List ℕ).Perm ([1, 2].map fun x => x)
    decide

/-- C6 witness: the selection at the concrete widths 1 and 8. -/
theorem choose_map_impl_spec_witness :
    choose_map_impl 1 4 = .builtinMap ∧
    choose_map_impl 8 1 = .poolImapUnordered 8 1 :=
  ⟨choose_map_impl_spec.1 4, choose_map_impl_spec.2.1 8 1 (by norm_num)⟩

/-- C7 counterexample: with `--keep-precision` alone, `main` skips only the
`dr.txt` file; the `else` branch still calls
`write_log(sys.stdout.write, ...)`, so a rendering of the log *is*
produced. -/
theorem keep_precision_still_renders_log :
    main_log_dest false true false = .stdout ∧
    main_log_dest false true false ≠ .noOutput ∧
    should_write_log false true false = false := by
  refine ⟨by decide, by decide, by decide⟩

/-- C7 amended: when keep-precision mode is active, the file-log step is
skipped — `should_write_log` is false and `dr.txt` is never opened — but the
log is still rendered, to standard output. -/
theorem keep_precision_skips_file_log (no_log no_resample : Bool) :
    should_write_log no_log true no_resample = false ∧
    main_log_dest no_log true no_resample = .stdout := by
  cases no_log <;> cases no_resample <;> exact ⟨rfl, rfl⟩

/-- C9: an empty catalog makes `analyze_dr` fail at `assert num_files > 0`,
before the pool widths are computed or any map implementation (worker pool)
is built: the setup returns the assertion error and no `.ok` payload. -/
theorem analyze_dr_empty_input (cpu_count : ℕ) :
    analyze_dr_setup [] cpu_count = .error .assertNumFilesPositive := rfl

lemma pad2_length_two : ∀ k < 60, (pad2 k).length = 2 := by decide

/-- C10: `format_time` renders `h:mm:ss` (minutes and seconds zero-padded to
two digits) exactly when the input is at least 3600 seconds, and `m:ss`
otherwise, and in both forms the displayed fields decode back to the input
seconds. -/
theorem format_time_spec (n : ℕ) :
    (3600 ≤ n →
      format_time n = toString (n / 3600) ++ ":" ++ pad2 (n / 60 % 60) ++
        ":" ++ pad2 (n % 60) ∧
      n / 3600 * 3600 + n / 60 % 60 * 60 + n % 60 = n) ∧
    (n < 3600 →
      format_time n = toString (n / 60) ++ ":" ++ pad2 (n % 60) ∧
      n / 60 * 60 + n % 60 = n) ∧
    (pad2 (n / 60 % 60)).length = 2 ∧ (pad2 (n % 60)).length = 2 := by
  have hdd : n / 60 / 60 = n / 3600 := by
    rw [Nat.div_div_eq_div_mul]
  refine ⟨fun h36 => ?_, fun hlt => ?_, pad2_length_two _ (by omega),
    pad2_length_two _ (by omega)⟩
  · have hne : n / 60 / 60 ≠ 0 := by omega
    unfold format_time
    rw [if_pos hne, hdd]
    exact ⟨rfl, by omega⟩
  · have heq : n / 60 / 60 = 0 := by omega
    unfold format_time
    rw [if_neg (by omega)]
    exact ⟨rfl, by omega⟩

/-- C10 witness: 3661 seconds render as `1:01:01`, 125 seconds as `2:05`. -/
theorem format_time_spec_witness :
    format_time 3661 = "1:01:01" ∧ format_time 125 = "2:05" := by
  have h1 := (format_time_spec 3661).1 (by norm_num)
  have h2 := (format_time_spec 125).2.1 (by norm_num)
  refine ⟨?_, ?_⟩
  · rw [h1.1]; decide
  · rw [h2.1]; decide

end DrMeter
